import Mathlib

/-!
Verification development for the saltgrep regular-expression engine.

The Rust sources are shallowly embedded: machine integers are `Nat`
(with explicit masks/shifts where overflow or truncation matters),
`Vec`/`HashSet`/`HashMap` become lists (sets are kept as sorted
duplicate-free lists; hash maps become association lists — every
observation made by the embedded code on these collections is
order-independent, except where a theorem explicitly exhibits the
order-dependence of the source), and fallible code returns `Option` /
`Except`.  A `none` produced by a function documented as "panic" models
a Rust `panic!` / `expect` abort.  Loops whose termination is not
structural carry an explicit fuel argument that provably exceeds the
number of iterations the source loop can perform.
-/

namespace Saltgrep

/-! ## Generic list helpers (models of Vec / HashSet / HashMap operations) -/

/-- Insert into a sorted duplicate-free list of naturals (models `HashSet::insert`). -/
def insertSet (n : Nat) : List Nat → List Nat
  | [] => [n]
  | m :: rest =>
    if n < m then n :: m :: rest
    else if n = m then m :: rest
    else m :: insertSet n rest

/-- Remove from a set (models `HashSet::remove`). -/
def removeSet (n : Nat) (l : List Nat) : List Nat := l.filter (fun m => m ≠ n)

/-- Model of mutating `l[n]` in place (Rust indexed assignment); out-of-range
indices leave the list unchanged (the sources only index in range). -/
def listModify (l : List α) (n : Nat) (f : α → α) : List α :=
  match l, n with
  | [], _ => []
  | a :: rest, 0 => f a :: rest
  | a :: rest, m + 1 => a :: listModify rest m f

/-- Last element (models `Vec::last`). -/
def lastOf? (l : List α) : Option α := l.reverse.head?

/-- Replace the last element (models `last_mut` followed by an assignment). -/
def listMapLast (f : α → α) : List α → List α
  | [] => []
  | [a] => [f a]
  | a :: b :: rest => a :: listMapLast f (b :: rest)

/-- First `some` of a list of options (models `Iterator::find(Option::is_some)` + `flatten`). -/
def firstSome : List (Option α) → Option α
  | [] => none
  | some a :: _ => some a
  | none :: rest => firstSome rest

/-- UTF-8 byte length of a Unicode scalar (models `char::len_utf8`). -/
def utf8Len (c : Char) : Nat :=
  if c.toNat < 0x80 then 1
  else if c.toNat < 0x800 then 2
  else if c.toNat < 0x10000 then 3
  else 4

/-- Total UTF-8 byte length of a string given as its scalar sequence. -/
def byteLen (l : List Char) : Nat := (l.map utf8Len).sum

/-- Model of the Rust byte slice `&s[at..]` on a string held as its scalar
sequence: `none` models the panic on an out-of-bounds or
non-character-boundary index. -/
def sliceFrom (l : List Char) (at_ : Nat) : Option (List Char) :=
  match l, at_ with
  | l, 0 => some l
  | [], _ + 1 => none
  | c :: cs, at_ => if utf8Len c ≤ at_ then sliceFrom cs (at_ - utf8Len c) else none

/-- Model of the Rust byte slice `&s[start..stop]`. -/
def sliceRange (l : List Char) (start stop : Nat) : Option (List Char) :=
  if start ≤ stop then
    match sliceFrom l start with
    | none => none
    | some suffix => takeBytes suffix (stop - start)
  else none
where
  /-- Take a prefix of exactly `n` bytes; `none` models the boundary panic. -/
  takeBytes : List Char → Nat → Option (List Char)
    | _, 0 => some []
    | [], _ + 1 => none
    | c :: cs, n =>
      if utf8Len c ≤ n then (takeBytes cs (n - utf8Len c)).map (fun r => c :: r)
      else none

/-! ## `src/gex/machine.rs` — rules, transitions, states -/

/-- `Rule` from machine.rs. -/
inductive Rule where
  | range (lo hi : Nat) (positive : Bool)
  | not (value : Nat)
  | isWord (positive : Bool)
  | isDigit (positive : Bool)
  | isWhitespace (positive : Bool)
  | null
deriving DecidableEq, Repr

/-- `Next` from machine.rs. -/
inductive Next where
  | target (n : Nat)
  | accept
deriving DecidableEq, Repr

/-- machine.rs `FlagShifts` (note: machine.rs and features.rs each define
their own, mutually inconsistent, `FlagShifts`/`FlagMasks` enums). -/
def machineShiftShortCircuit : Nat := 0
def machineShiftCloseGroup : Nat := 1
def machineShiftCapturingGroup : Nat := 48

/-- machine.rs `FlagMasks`. -/
def machineMaskShortCircuit : Nat := 0x1
def machineMaskCloseGroup : Nat := 0x2
def machineMaskCapturingGroup : Nat := 0xFFFF <<< machineShiftCapturingGroup

abbrev Transition := Rule × Next

/-- `State` from machine.rs. -/
structure State where
  transitions : List Transition
  flags : Nat
deriving DecidableEq, Repr

namespace State

def from_transitions (transitions : List Transition) : State :=
  { transitions := transitions, flags := 0x0 }

def short_circuit_from_transitions (transitions : List Transition) : State :=
  { transitions := transitions, flags := machineMaskShortCircuit }

def accept_state : State :=
  { transitions := [(Rule.null, Next.accept)], flags := 0x0 }

def pushT (s : State) (t : Transition) : State :=
  { s with transitions := s.transitions ++ [t] }

def short_circuit (s : State) : Bool :=
  s.flags &&& machineMaskShortCircuit ≠ 0

end State

/-! ## `src/gex/features.rs` -/

/-- features.rs `FlagShifts` — NOT the same values as machine.rs's enum of
the same name: here `CapturingGroup = 0` and `CloseGroup = 16`. -/
def featuresShiftCapturingGroup : Nat := 0
def featuresShiftCloseGroup : Nat := 16
def featuresShiftShortCircuit : Nat := 17

/-- features.rs `FlagMasks`. -/
def featuresMaskCapturingGroup : Nat := 0xFFFF <<< featuresShiftCapturingGroup
def featuresMaskCloseGroup : Nat := 0x1 <<< featuresShiftCloseGroup
def featuresMaskShortCircuit : Nat := 0x1 <<< featuresShiftShortCircuit

/-- `GexFeatures` from features.rs; `state_flags` models the
`HashMap<usize, Vec<u64>>` as an association list. -/
structure GexFeatures where
  state_flags : List (Nat × List Nat)
deriving DecidableEq, Repr

/-- Association-list lookup (models `HashMap::get`). -/
def featGet (f : List (Nat × List Nat)) (k : Nat) : Option (List Nat) :=
  match f with
  | [] => none
  | (k', v) :: rest => if k' = k then some v else featGet rest k

/-- Lookup defaulting to the empty flag vector. -/
def featGetD (f : List (Nat × List Nat)) (k : Nat) : List Nat :=
  (featGet f k).getD []

/-- Models `entry(k).and_modify(|e| e.push(flag)).or_insert(vec![flag])`. -/
def featPush (f : List (Nat × List Nat)) (k : Nat) (flag : Nat) : List (Nat × List Nat) :=
  match f with
  | [] => [(k, [flag])]
  | (k', v) :: rest =>
    if k' = k then (k', v ++ [flag]) :: rest else (k', v) :: featPush rest k flag

/-- Models `entry(k).and_modify(|e| e.extend(vec)).or_insert(vec)` (the
insert happens even when `vec` is empty, as in the source). -/
def featExtend (f : List (Nat × List Nat)) (k : Nat) (vec : List Nat) : List (Nat × List Nat) :=
  match f with
  | [] => [(k, vec)]
  | (k', v) :: rest =>
    if k' = k then (k', v ++ vec) :: rest else (k', v) :: featExtend rest k vec

namespace GexFeatures

def new : GexFeatures := ⟨[]⟩

/-- `GexFeatures::group_number`: `(flags >> FlagShifts::CapturingGroup) as u16`
with features.rs's `CapturingGroup = 0`, i.e. the LOW 16 bits of the word. -/
def group_number (flags : Nat) : Nat :=
  (flags >>> featuresShiftCapturingGroup) % 65536

/-- `GexFeatures::group_numbers`: decode every flag word attached to a state
into `(group number, close flag)` using features.rs's shifts
(`CapturingGroup = 0`, `CloseGroup = 16`). -/
def group_numbers (f : GexFeatures) (state_label : Nat) : Option (List (Nat × Nat)) :=
  (featGet f.state_flags state_label).map (fun flags_vec =>
    flags_vec.map (fun flags =>
      ((flags >>> featuresShiftCapturingGroup) % 65536,
       (flags &&& featuresMaskCloseGroup) >>> featuresShiftCloseGroup)))

end GexFeatures

/-! ## `src/gex/machine.rs` — the machine and its combinators -/

/-- `states_shifter` from machine.rs. -/
def states_shifter (shift : Nat) (s : State) : State :=
  { s with
    transitions := s.transitions.map (fun t =>
      match t with
      | (rule, Next.target next) => (rule, Next.target (next + shift))
      | other => other) }

/-- `GexMachine` from machine.rs. -/
structure GexMachine where
  states : List State
  features : GexFeatures
  max_group_index : Nat
deriving DecidableEq, Repr

namespace GexMachine

def from_states (states : List State) : GexMachine :=
  { states := states, features := GexFeatures.new, max_group_index := 0 }

def size (m : GexMachine) : Nat := m.states.length

/-- One flag word of `add_shifted_flags`: clear the top 16 bits and store the
shifted group number there.  The source computes
`group_number(flags) + group_shift` and panics (`try_into` + `panic!`) when
the sum exceeds `u16`; that unreachable-here case is modelled by the same
`% 65536` truncation a `u16` store performs. -/
def shiftFlagWord (group_shift : Nat) (flags : Nat) : Nat :=
  let big_new_number := GexFeatures.group_number flags + group_shift
  let new_group_number := big_new_number % 65536
  (flags &&& (2 ^ machineShiftCapturingGroup - 1)) |||
    (new_group_number <<< machineShiftCapturingGroup)

/-- `GexMachine::add_shifted_flags`: merge `other`'s feature map into `self`'s,
re-indexing states by `old_accept_idx` (state `0` kept fixed when
`maintain_root`), dropping flag words whose features.rs-decoded group number
is `0`, and shifting the surviving group numbers by `self.max_group_index`. -/
def add_shifted_flags (m : GexMachine) (other_state_flags : List (Nat × List Nat))
    (old_accept_idx : Nat) (maintain_root : Bool) : GexMachine :=
  let group_shift := m.max_group_index
  let newFlags := other_state_flags.foldl (fun acc (entry : Nat × List Nat) =>
    let state_idx := entry.1
    let new_idx := if maintain_root && state_idx == 0 then state_idx
                   else state_idx + old_accept_idx
    let shifted_flags :=
      (entry.2.filter (fun flags => GexFeatures.group_number flags ≠ 0)).map
        (shiftFlagWord group_shift)
    featExtend acc new_idx shifted_flags) m.features.state_flags
  { m with features := ⟨newFlags⟩ }

/-- `GexMachine::cons`. -/
def cons (m other : GexMachine) : GexMachine :=
  let old_accept_idx := m.size - 1
  -- IMPORTANT Assumption in the source: the last state is a singular Accept
  let states := m.states.dropLast ++ other.states.map (states_shifter old_accept_idx)
  let m' := add_shifted_flags { m with states := states }
    other.features.state_flags old_accept_idx false
  { m' with max_group_index := m.max_group_index + other.max_group_index }

/-- The retargeting done by `or` on the old accept state:
`last_mut().transitions.last_mut().1 = Target(new_accept_idx)`. -/
def retargetLastTransition (new_accept_idx : Nat) (s : State) : State :=
  { s with transitions := listMapLast (fun t => (t.1, Next.target new_accept_idx)) s.transitions }

/-- `GexMachine::or`. -/
def or (m other : GexMachine) : GexMachine :=
  let other_start := m.size
  let states1 := listModify m.states 0
    (fun s => s.pushT (Rule.null, Next.target other_start))
  let new_accept_idx := m.size + other.states.length - 1
  let old_accept_idx := m.size - 1
  let states2 := listMapLast (retargetLastTransition new_accept_idx) states1
  let states3 := states2 ++ other.states.map (states_shifter other_start)
  let m' := add_shifted_flags { m with states := states3 }
    other.features.state_flags old_accept_idx true
  { m' with max_group_index := m.max_group_index + other.max_group_index }

/-- `GexMachine::group`: bump `max_group_index`, then record an open flag word
on state `0` and a close flag word on the last state, using machine.rs's
shifts (`CapturingGroup = 48`, close mask `0x2`). -/
def group (m : GexMachine) : GexMachine :=
  let new_max := m.max_group_index + 1
  let new_group_number := new_max <<< machineShiftCapturingGroup
  let last_idx := m.states.length - 1
  let start_flag := new_group_number
  let end_flag := new_group_number ||| machineMaskCloseGroup
  { m with
    max_group_index := new_max,
    features := ⟨featPush (featPush m.features.state_flags 0 start_flag) last_idx end_flag⟩ }

/-- `GexMachine::accept_zero`. -/
def accept_zero (m : GexMachine) : GexMachine :=
  let new_accept_idx := m.size
  let states := listModify m.states 0
    (fun s => s.pushT (Rule.null, Next.target new_accept_idx))
  { m with states := states }

/-- `GexMachine::accept_repeats`. -/
def accept_repeats (m : GexMachine) : GexMachine :=
  let new_accept_idx := m.size
  let states := listModify m.states (new_accept_idx - 1)
    (fun s => s.pushT (Rule.null, Next.target 0))
  { m with states := states }

/-- The rewrite done by `finalize_quantifier` on the old accept state: every
`Accept` transition is redirected to the fresh accept index. -/
def retargetAccepts (new_accept_idx : Nat) (s : State) : State :=
  { s with transitions := s.transitions.map (fun t =>
      match t with
      | (rule, Next.accept) => (rule, Next.target new_accept_idx)
      | other => other) }

/-- `GexMachine::finalize_quantifier`. -/
def finalize_quantifier (m : GexMachine) : GexMachine :=
  let new_accept_idx := m.size
  let states := listModify m.states (new_accept_idx - 1) (retargetAccepts new_accept_idx)
  { m with states := states ++ [State.accept_state] }

def zero_or_more (m : GexMachine) : GexMachine :=
  m.accept_zero.accept_repeats.finalize_quantifier

def one_or_more (m : GexMachine) : GexMachine :=
  m.accept_repeats.finalize_quantifier

def zero_or_one (m : GexMachine) : GexMachine :=
  m.accept_zero.finalize_quantifier

end GexMachine

/-! ## `src/matcher.rs` — `Match` and the `Matcher` trait -/

/-- `Match` from matcher.rs; `stop` models the Rust field `end` (a Lean
keyword). -/
structure Match where
  start : Nat
  stop : Nat
deriving DecidableEq, Repr

namespace Match

/-- `Match::shift`. -/
def shift (m : Match) (k : Nat) : Match := { start := m.start + k, stop := m.stop + k }

end Match

/-! ## `src/gex/gmatcher.rs` — the NFA simulator -/

/-- `MatchCandidate` from gmatcher.rs; `stop` models the field `end`. -/
structure MatchCandidate where
  start : Nat
  stop : Option Nat
deriving DecidableEq, Repr

namespace MatchCandidate

def with_start (start : Nat) : MatchCandidate := { start := start, stop := none }

def new : MatchCandidate := with_start 0

end MatchCandidate

/-- `GexMatcher` from gmatcher.rs: `noCaptures` models `captures: None`,
`capturing m` models `captures: Some(m)` with the `HashMap<u16,
MatchCandidate>` as an association list. -/
inductive GexMatcher where
  | noCaptures
  | capturing (captures : List (Nat × MatchCandidate))
deriving DecidableEq, Repr

/-- `HashMap::insert` on the candidate map (replaces an existing entry). -/
def candInsert (m : List (Nat × MatchCandidate)) (k : Nat) (v : MatchCandidate) :
    List (Nat × MatchCandidate) :=
  match m with
  | [] => [(k, v)]
  | (k', v') :: rest => if k' = k then (k, v) :: rest else (k', v') :: candInsert rest k v

/-- `HashMap::get` on the candidate map. -/
def candGet (m : List (Nat × MatchCandidate)) (k : Nat) : Option MatchCandidate :=
  match m with
  | [] => none
  | (k', v') :: rest => if k' = k then some v' else candGet rest k

/-- Models Rust `char::is_alphanumeric` (restricted to its ASCII behaviour;
every input exercised in this development is ASCII). -/
def char_is_alphanumeric (c : Char) : Bool := c.isAlphanum

/-- Models Rust `char::is_numeric` (ASCII fragment). -/
def char_is_numeric (c : Char) : Bool := c.isDigit

/-- Models Rust `char::is_whitespace` (ASCII fragment). -/
def char_is_whitespace (c : Char) : Bool := c.isWhitespace

namespace GexMachine

/-- `GexMachine::evaluate_rule` from gmatcher.rs.  `Null` rules always
evaluate false: epsilon edges are handled by `collapse_null_transitions`. -/
def evaluate_rule (rule : Rule) (given : Char) : Bool :=
  match rule with
  | Rule.range start stop positive =>
    (decide (start ≤ given.toNat) && decide (given.toNat ≤ stop)) ^^ !positive
  | Rule.not value => given.toNat ≠ value
  | Rule.isWord positive => char_is_alphanumeric given ^^ !positive
  | Rule.isDigit positive => char_is_numeric given ^^ !positive
  | Rule.isWhitespace positive => char_is_whitespace given ^^ !positive
  | Rule.null => false

/-- `GexMachine::capture_group` from gmatcher.rs: decode the feature flag
words of a state via `GexFeatures::group_numbers` and record candidate
opens/closes at `position`.  Result `none` models the `unwrap` panic when a
close flag arrives for a group with no open candidate. -/
def capture_group (m : GexMachine) (captures : List (Nat × MatchCandidate))
    (state_label position : Nat) : Option (List (Nat × MatchCandidate)) :=
  match m.features.group_numbers state_label with
  | none => some captures
  | some group_numbers =>
    group_numbers.foldl (fun acc (entry : Nat × Nat) =>
      match acc with
      | none => none
      | some caps =>
        let group_number := entry.1
        match entry.2 with
        | 0 => some (candInsert caps group_number (MatchCandidate.with_start position))
        | _ =>
          match candGet caps group_number with
          | none => none
          | some cand =>
            some (candInsert caps group_number { cand with stop := some position }))
      (some captures)

/-- `GexMachine::evaluate_state_flags` from gmatcher.rs (capture recording is
gated on captures having been requested). -/
def evaluate_state_flags (m : GexMachine) (matcher : GexMatcher)
    (state_label position : Nat) : Option GexMatcher :=
  match matcher with
  | GexMatcher.noCaptures => some GexMatcher.noCaptures
  | GexMatcher.capturing caps =>
    (m.capture_group caps state_label position).map GexMatcher.capturing

/-- Upper bound on stack operations inside `collapse_null_transitions`. -/
def totalTransitions (m : GexMachine) : Nat :=
  (m.states.map (fun s => s.transitions.length)).sum

/-- The worklist loop of `collapse_null_transitions`.  The stack models the
source `Vec` (push/pop at the same end); `visited` and `collapsed` are sets.
Result `none` models a capture panic. -/
def collapseGo (m : GexMachine) (position : Nat) :
    Nat → List Nat → List Nat → List Nat → Bool → GexMatcher →
    Option (List Nat × Bool × GexMatcher)
  | 0, _, _, collapsed, accept, matcher =>
    -- fuel is chosen so that this branch is never reached
    some (collapsed, accept, matcher)
  | _ + 1, [], _, collapsed, accept, matcher => some (collapsed, accept, matcher)
  | fuel + 1, last_state_label :: stack, visited, collapsed, accept, matcher =>
    let collapsed := insertSet last_state_label collapsed
    if last_state_label ∈ visited then
      collapseGo m position fuel stack visited collapsed accept matcher
    else
      let visited := insertSet last_state_label visited
      match m.states.get? last_state_label with
      | none => collapseGo m position fuel stack visited collapsed accept matcher
      | some state =>
        match m.evaluate_state_flags matcher last_state_label position with
        | none => none
        | some matcher =>
          let step := state.transitions.foldl
            (fun (acc : List Nat × List Nat × Bool) t =>
              match t with
              | (Rule.null, Next.target next) =>
                (next :: acc.1, removeSet last_state_label (insertSet next acc.2.1), acc.2.2)
              | (Rule.null, Next.accept) =>
                (acc.1, removeSet last_state_label acc.2.1, true)
              | _ => acc)
            (stack, collapsed, accept)
          collapseGo m position fuel step.1 visited step.2.1 step.2.2 matcher

/-- `GexMachine::collapse_null_transitions` from gmatcher.rs. -/
def collapse_null_transitions (m : GexMachine) (curr_states : List Nat)
    (position : Nat) (matcher : GexMatcher) : Option (List Nat × Bool × GexMatcher) :=
  collapseGo m position (curr_states.length + m.totalTransitions + 1)
    curr_states [] [] false matcher

/-- The inner rule loop of `do_transition` for one state: returns
`(states_to_add, consumed, accepted, short_circuit)`.  A failing rule on a
short-circuit state stops the loop immediately (`break`). -/
def stateRules (state : State) (input_char : Char) :
    List Transition → List Nat → Bool → Bool → (List Nat × Bool × Bool × Bool)
  | [], states_to_add, consumed, accepted => (states_to_add, consumed, accepted, false)
  | t :: rest, states_to_add, consumed, accepted =>
    if GexMachine.evaluate_rule t.1 input_char then
      match t.2 with
      | Next.target next => stateRules state input_char rest (insertSet next states_to_add) true accepted
      | Next.accept => stateRules state input_char rest states_to_add true true
    else if state.short_circuit then
      -- `consumed_a_character = false; short_circuit = true; break;`
      (states_to_add, false, accepted, true)
    else
      stateRules state input_char rest states_to_add consumed accepted

/-- The outer state loop of `do_transition`.  When a short-circuit state
fails, the source executes `break`, abandoning the remaining active states;
`consumed` and `accepted` keep whatever value they had at that point. -/
def transitionStates (m : GexMachine) (input_char : Char) (position : Nat) :
    List Nat → List Nat → Bool → Bool → GexMatcher →
    Option (List Nat × Bool × Bool × GexMatcher)
  | [], new_states, consumed, accepted, matcher => some (new_states, consumed, accepted, matcher)
  | state_label :: rest, new_states, consumed, accepted, matcher =>
    match m.states.get? state_label with
    | none => transitionStates m input_char position rest new_states consumed accepted matcher
    | some state =>
      match m.evaluate_state_flags matcher state_label position with
      | none => none
      | some matcher =>
        match stateRules state input_char state.transitions [] consumed accepted with
        | (states_to_add, consumed, accepted, short_circuit) =>
          if short_circuit then some (new_states, consumed, accepted, matcher)
          else
            transitionStates m input_char position rest
              (states_to_add.foldl (fun acc n => insertSet n acc) new_states)
              consumed accepted matcher

/-- `GexMachine::do_transition` from gmatcher.rs.  Note that a consumed
character advances the position by exactly `1` (`new_position += 1`); the
source computes no UTF-8 length here. -/
def do_transition (m : GexMachine) (curr_states : List Nat) (input_char : Char)
    (matcher : GexMatcher) (position : Nat) (accepted : Bool) :
    Option (List Nat × Bool × Nat × GexMatcher) :=
  match transitionStates m input_char position curr_states [] false accepted matcher with
  | none => none
  | some (new_states, consumed_a_character, accepted, matcher) =>
    let new_position := if consumed_a_character then position + 1 else position
    match m.collapse_null_transitions new_states new_position matcher with
    | none => none
    | some (new_states, accepted_via_null, matcher) =>
      some (new_states, accepted || accepted_via_null, new_position, matcher)

/-- The per-character loop of `run_machine`; returns the candidate end (if
any) and the final matcher state.  The source breaks out of the loop when
the active state set becomes empty. -/
def runChars (m : GexMachine) :
    List Char → List Nat → Nat → Bool → Option Nat → GexMatcher →
    Option (Option Nat × GexMatcher)
  | [], _, _, _, cand_end, matcher => some (cand_end, matcher)
  | input_char :: rest, curr_states, position, accepted, cand_end, matcher =>
    match m.do_transition curr_states input_char matcher position accepted with
    | none => none
    | some (curr_states, accepted, next_position, matcher) =>
      let moved := position < next_position
      let position' := if moved then next_position else position
      let cand_end := if moved && accepted then some position' else cand_end
      if curr_states.isEmpty then some (cand_end, matcher)
      else runChars m rest curr_states position' accepted cand_end matcher

/-- `GexMachine::run_machine` from gmatcher.rs.  The returned match always
has `start = 0` (`candidate.start = start_position = 0`).  Note the source
leaves `accepted = false` after the initial null collapse (the
`accepted = accepted || accepted_via_null` line is commented out there);
only `candidate.end` records the initial null acceptance.  Result `none`
models a capture panic. -/
def run_machine (m : GexMachine) (input : List Char) (matcher : GexMatcher) :
    Option (Option Match × GexMatcher) :=
  match m.collapse_null_transitions [0] 0 matcher with
  | none => none
  | some (curr_states, accepted_via_null, matcher) =>
    let cand_end : Option Nat := if accepted_via_null then some 0 else none
    match runChars m input curr_states 0 false cand_end matcher with
    | none => none
    | some (cand_end, matcher) =>
      some (cand_end.map (fun e => { start := 0, stop := e }), matcher)

/-- `run_machine` with `captures: None`; such runs never execute the capture
branch, so the panic case is collapsed away. -/
def runFind (m : GexMachine) (input : List Char) : Option Match :=
  match m.run_machine input GexMatcher.noCaptures with
  | some (result, _) => result
  | none => none

/-- The `(byte offset, suffix)` pairs produced by `char_indices` (each scalar
paired with the suffix of the input starting at it). -/
def charIndexSuffixes (offset : Nat) : List Char → List (Nat × List Char)
  | [] => []
  | c :: cs => (offset, c :: cs) :: charIndexSuffixes (offset + utf8Len c) cs

/-- `GexMachine::find_at` from gmatcher.rs (`impl Matcher for GexMachine`):
slice the input at `at` (outer `none` models the slicing panic), then try
`run_machine` at the start and at every scalar's byte offset, returning the
first match shifted by `offset + at`.  The initial `once((0, '\0'))` entry
duplicates offset `0`. -/
def find_at (m : GexMachine) (input : List Char) (at_ : Nat) : Option (Option Match) :=
  (sliceFrom input at_).map (fun start_input =>
    let candidates := (0, start_input) :: charIndexSuffixes 0 start_input
    firstSome (candidates.map (fun c =>
      (m.runFind c.2).map (fun found => found.shift (c.1 + at_)))))

/-- `Matcher::find` (default method): `find_at(input, 0)`; slicing at `0`
never panics, so the panic layer is collapsed. -/
def find (m : GexMachine) (input : List Char) : Option Match :=
  match m.find_at input 0 with
  | some r => r
  | none => none

/-- `GexMatcher::unwrap_captures`: keep only the candidates whose end has
been set. -/
def unwrap_captures (captures : List (Nat × MatchCandidate)) : List (Nat × Match) :=
  captures.filterMap (fun (entry : Nat × MatchCandidate) =>
    entry.2.stop.map (fun e => (entry.1, { start := entry.2.start, stop := e })))

/-- `HashMap::insert` on the final capture map. -/
def capInsert (m : List (Nat × Match)) (k : Nat) (v : Match) : List (Nat × Match) :=
  match m with
  | [] => [(k, v)]
  | (k', v') :: rest => if k' = k then (k, v) :: rest else (k', v') :: capInsert rest k v

/-- `GexMachine::captures` from gmatcher.rs: a single anchored
`run_machine(input)` with a fresh capture map (no sliding, unlike
`find_at`); on success, entry `0` is inserted as the overall match.  The
outer `none` models a capture panic. -/
def captures (m : GexMachine) (input : List Char) : Option (Option (List (Nat × Match))) :=
  match m.run_machine input (GexMatcher.capturing []) with
  | none => none
  | some (root_match, matcher) =>
    some (root_match.map (fun root =>
      let caps := match matcher with
        | GexMatcher.capturing c => unwrap_captures c
        | GexMatcher.noCaptures => []
      capInsert caps 0 root))

/-- `Matcher::try_find_iter_at` (default method in matcher.rs), modelled as
the list of matches delivered to the callback; `cb found = false` models the
callback returning `Ok(false)` (stop) and a slicing panic inside `find_at`
ends the iteration with nothing further delivered.  After a zero-width match
the resume position is `found.end + 1`, otherwise `found.end`. -/
def try_find_iter_at (m : GexMachine) (input : List Char) (at_ : Nat)
    (cb : Match → Bool) : Nat → List Match
  | 0 => []
  | fuel + 1 =>
    match m.find_at input at_ with
    | none => []
    | some none => []
    | some (some found) =>
      let last_end := if found.start == found.stop then found.stop + 1 else found.stop
      found :: (if cb found then m.try_find_iter_at input last_end cb fuel else [])

end GexMachine

/-! ## `src/gex/simple_machines.rs` -/

/-- `machine_for_character` from simple_machines.rs. -/
def machine_for_character (character : Char) : GexMachine :=
  GexMachine.from_states [
    State.from_transitions [(Rule.null, Next.target 1)],
    State.from_transitions [(Rule.range character.toNat character.toNat true, Next.target 2)],
    State.accept_state]

/-- `wildcard_machine` from simple_machines.rs. -/
def wildcard_machine : GexMachine :=
  GexMachine.from_states [
    State.from_transitions [(Rule.null, Next.target 1)],
    State.from_transitions [(Rule.range 0 0x10ffff true, Next.target 2)],
    State.accept_state]

/-- `char_class_escape_machine` from simple_machines.rs. -/
def char_class_escape_machine (positive : Bool) (transitions : List Transition) : GexMachine :=
  let class_state := if positive then State.from_transitions transitions
                     else State.short_circuit_from_transitions transitions
  GexMachine.from_states [
    State.from_transitions [(Rule.null, Next.target 1)],
    class_state,
    State.accept_state]

/-- `word_char_machine` from simple_machines.rs. -/
def word_char_machine (positive : Bool) : GexMachine :=
  let base := [(Rule.isWord positive, Next.target 2)]
  let transitions := if positive then
      base ++ [(Rule.range '_'.toNat '_'.toNat true, Next.target 2)]
    else
      base ++ [(Rule.not '_'.toNat, Next.target 2)]
  char_class_escape_machine positive transitions

/-- `digit_char_machine` from simple_machines.rs. -/
def digit_char_machine (positive : Bool) : GexMachine :=
  char_class_escape_machine positive [(Rule.isDigit positive, Next.target 2)]

/-- `whitespace_char_machine` from simple_machines.rs. -/
def whitespace_char_machine (positive : Bool) : GexMachine :=
  char_class_escape_machine positive [(Rule.isWhitespace positive, Next.target 2)]

/-- The scanner loop of `manual_character_class_machine`: walk the class
contents maintaining the literal stack and the accumulated range rules.
`none` models the panics (`expect` on a trailing backslash and the explicit
`panic!` on an out-of-order range). -/
def manualClassScan (positive : Bool) :
    List Char → List Char → List Rule → Option (List Char × List Rule)
  | [], result_stack, ranges => some (result_stack, ranges)
  | character :: rest, result_stack, ranges =>
    if character = '\\' then
      match rest with
      | [] => none
      | escaped :: rest => manualClassScan positive rest (result_stack ++ [escaped]) ranges
    else if character = '-' then
      match rest, lastOf? result_stack with
      | next :: rest, some prev =>
        if next < prev then none
        else manualClassScan positive rest result_stack
          (ranges ++ [Rule.range prev.toNat next.toNat positive])
      | next :: rest, none =>
        manualClassScan positive rest (result_stack ++ ['-', next]) ranges
      | [], some _ => manualClassScan positive [] (result_stack ++ ['-']) ranges
      | [], none => manualClassScan positive [] result_stack ranges
    else
      manualClassScan positive rest (result_stack ++ [character]) ranges

/-- `manual_character_class_machine` from simple_machines.rs.  `input_class`
is the full class source including brackets; its contents are the bytes from
index `1` (`2` when negative) up to the closing bracket.  `none` models the
panics inside the scanner. -/
def manual_character_class_machine (positive : Bool) (input_class : List Char) :
    Option GexMachine :=
  let start := if positive then 1 else 2
  let class_contents := (input_class.drop start).dropLast
  (manualClassScan positive class_contents [] []).map (fun scan =>
    let transitions :=
      (scan.2 ++ scan.1.map (fun character =>
        Rule.range character.toNat character.toNat positive)).map
        (fun range => (range, Next.target 2))
    GexMachine.from_states [
      State.from_transitions [(Rule.null, Next.target 1)],
      if positive then State.from_transitions transitions
      else State.short_circuit_from_transitions transitions,
      State.accept_state])

/-! ## `src/tokenize.rs` -/

/-- `TokenizeError` from tokenize.rs. -/
inductive TokenizeError where
  | emptyCharacterSet (pos : Nat)
  | unterminatedCharacterSet (pos : Nat)
  | unterminatedEscape (pos : Nat)
deriving DecidableEq, Repr

/-- `QuantifierType` from tokenize.rs. -/
inductive QuantifierType where
  | zeroOrMore
  | oneOrMore
  | zeroOrOne
deriving DecidableEq, Repr

/-- `CharacterClassType` from tokenize.rs. -/
inductive CharacterClassType where
  | manual
  | whitespace
  | digit
  | word
deriving DecidableEq, Repr

/-- `LiteralType` from tokenize.rs. -/
inductive LiteralType where
  | wildcard
  | character
  | escapedCharacter
  | characterClass (classType : CharacterClassType) (positive : Bool)
  | emptyString
deriving DecidableEq, Repr

/-- `TokenType` from tokenize.rs. -/
inductive TokenType where
  | quantifier (q : QuantifierType)
  | alternation
  | cons
  | literal (l : LiteralType)
  | openGroup
  | closeGroup
deriving DecidableEq, Repr

/-- `Token` from tokenize.rs (`position` is documented there as the byte span
of the token in the source string). -/
structure Token where
  kind : TokenType
  position : Nat × Nat
deriving DecidableEq, Repr

namespace Token

/-- `Token::create_long`. -/
def create_long (kind : TokenType) (start_position end_position : Nat) : Token :=
  { kind := kind, position := (start_position, end_position) }

/-- `Token::create` — note the fixed `position + 1` end, regardless of the
UTF-8 length of the scalar the token covers. -/
def create (kind : TokenType) (position : Nat) : Token :=
  create_long kind position (position + 1)

def consT (position : Nat) : Token := create_long TokenType.cons position position

def quantifier (kind : QuantifierType) (position : Nat) : Token :=
  create (TokenType.quantifier kind) position

def open_group (position : Nat) : Token := create TokenType.openGroup position

def close_group (position : Nat) : Token := create TokenType.closeGroup position

def startPos (t : Token) : Nat := t.position.1

def endPos (t : Token) : Nat := t.position.2

/-- `Token::get_precedence` (negated table, as in the source). -/
def get_precedence (t : Token) : Int :=
  -(match t.kind with
    | TokenType.closeGroup => (4 : Int)
    | TokenType.quantifier _ => 5
    | TokenType.cons => 6
    | TokenType.alternation => 8
    | TokenType.openGroup => 10
    | TokenType.literal _ => 0)

/-- `Token::precedes`. -/
def precedes (t other : Token) : Bool := other.get_precedence < t.get_precedence

/-- `Token::same_precedence_as`. -/
def same_precedence_as (t other : Token) : Bool := t.get_precedence = other.get_precedence

end Token

/-- `should_join_literals` from tokenize.rs. -/
def should_join_literals (token : Token) : Bool :=
  match token.kind with
  | TokenType.closeGroup | TokenType.quantifier _ | TokenType.literal _ => true
  | _ => false

/-- The scan loop of `munch_character_class`: `remaining` is the unconsumed
input, `prev` the previously seen scalar (initially `'\0'`), `count` the
number of scalars seen inside the class, `next_position` the byte position
reached so far.  Returns the class token and the unconsumed rest. -/
def munchClassGo (position : Nat) (inverted : Bool) :
    List Char → Char → Nat → Nat → Except TokenizeError (Token × List Char)
  | [], _, _, _ => Except.error (TokenizeError.unterminatedCharacterSet position)
  | remaining_char :: rest, prev, count, next_position =>
    if remaining_char = ']' && prev ≠ '\\' then
      if count = 0 then Except.error (TokenizeError.emptyCharacterSet position)
      else
        Except.ok (Token.create_long
          (TokenType.literal (LiteralType.characterClass CharacterClassType.manual !inverted))
          position (next_position + utf8Len remaining_char), rest)
    else
      munchClassGo position inverted rest remaining_char (count + 1)
        (next_position + utf8Len remaining_char)

/-- `munch_character_class` from tokenize.rs: `position` is the position of
the opening bracket, `remaining_chars` everything after it. -/
def munch_character_class (remaining_chars : List Char) (position : Nat) :
    Except TokenizeError (Token × List Char) :=
  let next_position := position + 1
  match remaining_chars with
  | '^' :: rest => munchClassGo position true rest '\x00' 0 (next_position + 1)
  | rest => munchClassGo position false rest '\x00' 0 next_position

/-- `munch_character_class_escape` followed by the `munch_escape_character`
fallback, exactly as composed in `munch_token`'s `'\\'` arm:
`s S w W d D` yield class tokens; any other scalar yields an
`EscapedCharacter` token; a backslash at the end of the input is an
`UnterminatedEscape` error at the backslash's position. -/
def munchEscape (remaining_chars : List Char) (position : Nat) :
    Except TokenizeError (Token × List Char) :=
  match remaining_chars with
  | [] => Except.error (TokenizeError.unterminatedEscape position)
  | next_character :: rest =>
    let end_position := position + 1 + utf8Len next_character
    if next_character = 's' || next_character = 'S' then
      Except.ok (Token.create_long
        (TokenType.literal (LiteralType.characterClass CharacterClassType.whitespace
          (next_character == 's'))) position end_position, rest)
    else if next_character = 'w' || next_character = 'W' then
      Except.ok (Token.create_long
        (TokenType.literal (LiteralType.characterClass CharacterClassType.word
          (next_character == 'w'))) position end_position, rest)
    else if next_character = 'd' || next_character = 'D' then
      Except.ok (Token.create_long
        (TokenType.literal (LiteralType.characterClass CharacterClassType.digit
          (next_character == 'd'))) position end_position, rest)
    else
      Except.ok (Token.create_long (TokenType.literal LiteralType.escapedCharacter)
        position end_position, rest)

/-- `insert_cons` from tokenize.rs; `tokens` is held in reverse order (head =
most recently emitted), matching `Vec::last`. -/
def insertConsRev (tokens : List Token) : List Token :=
  match tokens with
  | [] => []
  | token :: _ =>
    if should_join_literals token then Token.consT token.endPos :: tokens else tokens

/-- `munch_token` from tokenize.rs: dispatch on the current scalar; returns
the (possibly cons-extended) reversed token list so far, the new token, and
the unconsumed rest. -/
def munch_token (remaining_chars : List Char) (character : Char) (position : Nat)
    (tokens : List Token) : Except TokenizeError (List Token × Token × List Char) :=
  if character = '(' then
    Except.ok (insertConsRev tokens, Token.open_group position, remaining_chars)
  else if character = ')' then
    Except.ok (tokens, Token.close_group position, remaining_chars)
  else if character = '[' then
    match munch_character_class remaining_chars position with
    | Except.error e => Except.error e
    | Except.ok (token, rest) => Except.ok (insertConsRev tokens, token, rest)
  else if character = '|' then
    Except.ok (tokens, Token.create TokenType.alternation position, remaining_chars)
  else if character = '*' then
    Except.ok (tokens, Token.quantifier QuantifierType.zeroOrMore position, remaining_chars)
  else if character = '+' then
    Except.ok (tokens, Token.quantifier QuantifierType.oneOrMore position, remaining_chars)
  else if character = '?' then
    Except.ok (tokens, Token.quantifier QuantifierType.zeroOrOne position, remaining_chars)
  else if character = '\\' then
    match munchEscape remaining_chars position with
    | Except.error e => Except.error e
    | Except.ok (token, rest) => Except.ok (insertConsRev tokens, token, rest)
  else if character = '.' then
    Except.ok (insertConsRev tokens,
      Token.create (TokenType.literal LiteralType.wildcard) position, remaining_chars)
  else
    Except.ok (insertConsRev tokens,
      Token.create (TokenType.literal LiteralType.character) position, remaining_chars)

/-- The main loop of `tokenize`; every iteration consumes at least one
scalar, so fuel `length + 1` is never exhausted. -/
def tokenizeGo : Nat → List Char → Nat → List Token → Except TokenizeError (List Token)
  | _, [], _, tokens => Except.ok tokens.reverse
  | 0, _ :: _, _, tokens => Except.ok tokens.reverse
  | fuel + 1, current_char :: remaining, position, tokens =>
    match munch_token remaining current_char position tokens with
    | Except.error e => Except.error e
    | Except.ok (tokens, token, rest) =>
      tokenizeGo fuel rest token.endPos (token :: tokens)

/-- `tokenize` from tokenize.rs. -/
def tokenize (in_str : List Char) : Except TokenizeError (List Token) :=
  tokenizeGo (in_str.length + 1) in_str 0 []

/-! ## The parser

src/railroad.rs in the repository is a stale version written against an
older, enum-shaped `Token` type; it does not型-match the current
tokenize.rs `Token` struct and lacks the `SyntaxError` type that
src/compile/compiler.rs imports from it.  The parser actually consumed by
the compiler is therefore missing from the sources and is modelled from the
specification below. -/

/-- Modelled from the spec: the parser's `SyntaxError` (unmatched group
closure, unclosed group at end of input, missing operand), which is missing
from src (railroad.rs is a stale incompatible version). -/
inductive SyntaxError where
  | unmatchedGroup
  | unclosedGroup
  | missingOperand
deriving DecidableEq, Repr

/-- `AstNode` in the shape consumed by src/compile/compiler.rs
(`Literal(ltype, token)`, `Quantifier(qtype, _)`, `Cons`, `Alternation`,
`Group`); child references are indices into the node sequence. -/
inductive AstNode where
  | literal (ltype : LiteralType) (token : Token)
  | quantifier (qtype : QuantifierType) (child : Nat)
  | consN (left right : Nat)
  | alternation (left right : Nat)
  | groupN (child : Nat)
deriving DecidableEq, Repr

/-- Parser state: the node sequence in append order, the output stack of
node references, and the operator stack. -/
structure ParseSt where
  nodes : List AstNode
  out : List Nat
  ops : List Token
deriving Repr

/-- Append a node and push its reference (models `out_stack.push(ast.add(n))`). -/
def pushNode (st : ParseSt) (n : AstNode) : ParseSt :=
  { st with nodes := st.nodes ++ [n], out := st.nodes.length :: st.out }

/-- Modelled from the spec: convert a popped operator token into an AST node
(binary pop of two operands, left-then-right ordering preserved); returns
the new node sequence and output stack. -/
def applyOp (nodes : List AstNode) (out : List Nat) (op : Token) :
    Except SyntaxError (List AstNode × List Nat) :=
  match op.kind with
  | TokenType.cons =>
    match out with
    | right :: left :: rest =>
      Except.ok (nodes ++ [AstNode.consN left right], nodes.length :: rest)
    | _ => Except.error SyntaxError.missingOperand
  | TokenType.alternation =>
    match out with
    | right :: left :: rest =>
      Except.ok (nodes ++ [AstNode.alternation left right], nodes.length :: rest)
    | _ => Except.error SyntaxError.missingOperand
  | TokenType.openGroup => Except.error SyntaxError.unclosedGroup
  | _ => Except.error SyntaxError.missingOperand

/-- Modelled from the spec: on `CloseGroup`, pop operators into the AST until
the matching `OpenGroup`, discard the opener, and wrap the top of the output
stack in a `Group` node. -/
def closeGroupLoop : List Token → List AstNode → List Nat → Except SyntaxError ParseSt
  | [], _, _ => Except.error SyntaxError.unmatchedGroup
  | op :: ops, nodes, out =>
    if op.kind = TokenType.openGroup then
      match out with
      | top :: rest =>
        Except.ok (pushNode { nodes := nodes, out := rest, ops := ops } (AstNode.groupN top))
      | [] => Except.error SyntaxError.missingOperand
    else
      match applyOp nodes out op with
      | Except.error e => Except.error e
      | Except.ok (nodes, out) => closeGroupLoop ops nodes out

/-- Modelled from the spec: for a binary operator, pop the operator stack
while its top is not of lower precedence than the current token
(`!(token.precedes(top) && !token.same_precedence_as(top))`), then push. -/
def binaryOpLoop (token : Token) : List Token → List AstNode → List Nat →
    Except SyntaxError ParseSt
  | [], nodes, out => Except.ok { nodes := nodes, out := out, ops := [token] }
  | previous_op :: ops, nodes, out =>
    if token.precedes previous_op && !(token.same_precedence_as previous_op) then
      Except.ok { nodes := nodes, out := out, ops := token :: previous_op :: ops }
    else
      match applyOp nodes out previous_op with
      | Except.error e => Except.error e
      | Except.ok (nodes, out) => binaryOpLoop token ops nodes out

/-- Modelled from the spec: the per-token step of the shunting-yard parser.
Literals push `Literal` nodes; `OpenGroup` goes to the operator stack (with
an `EmptyString` literal pushed first when the group is empty);
`CloseGroup` runs the group-closing pop; quantifiers bind immediately to the
top of the output stack; `Cons`/`Alternation` run the precedence pop. -/
def parseStep (token : Token) (lookahead : Option Token) (st : ParseSt) :
    Except SyntaxError ParseSt :=
  match token.kind with
  | TokenType.literal ltype => Except.ok (pushNode st (AstNode.literal ltype token))
  | TokenType.openGroup =>
    let st := { st with ops := token :: st.ops }
    match lookahead with
    | some next =>
      if next.kind = TokenType.closeGroup then
        Except.ok (pushNode st (AstNode.literal LiteralType.emptyString
          (Token.create_long (TokenType.literal LiteralType.emptyString)
            token.endPos token.endPos)))
      else Except.ok st
    | none => Except.ok st
  | TokenType.closeGroup => closeGroupLoop st.ops st.nodes st.out
  | TokenType.quantifier qtype =>
    match st.out with
    | top :: rest =>
      Except.ok (pushNode { st with out := rest } (AstNode.quantifier qtype top))
    | [] => Except.error SyntaxError.missingOperand
  | TokenType.cons => binaryOpLoop token st.ops st.nodes st.out
  | TokenType.alternation => binaryOpLoop token st.ops st.nodes st.out

/-- Modelled from the spec: fold the token stream through `parseStep`. -/
def parseTokensGo : List Token → ParseSt → Except SyntaxError ParseSt
  | [], st => Except.ok st
  | token :: rest, st =>
    match parseStep token rest.head? st with
    | Except.error e => Except.error e
    | Except.ok st => parseTokensGo rest st

/-- Modelled from the spec: flush the remaining operator stack at the end of
input (an `OpenGroup` still on the stack is an unclosed-group error). -/
def flushOps : List Token → List AstNode → List Nat → Except SyntaxError (List AstNode)
  | [], nodes, _ => Except.ok nodes
  | op :: ops, nodes, out =>
    match applyOp nodes out op with
    | Except.error e => Except.error e
    | Except.ok (nodes, out) => flushOps ops nodes out

/-- Modelled from the spec: `Ast::from_tokens` — the shunting-yard parser
producing the node sequence in evaluation (post-order) order; missing from
src (railroad.rs is stale). -/
def ast_from_tokens (tokens : List Token) : Except SyntaxError (List AstNode) :=
  match parseTokensGo tokens { nodes := [], out := [], ops := [] } with
  | Except.error e => Except.error e
  | Except.ok st => flushOps st.ops st.nodes st.out

/-! ## `src/compile/compiler.rs` -/

/-- `CompilerError` from compiler.rs. -/
inductive CompilerError where
  | lexicalError (e : TokenizeError)
  | syntaxError (e : SyntaxError)
  | missingOperand
  | catastrophic
deriving DecidableEq, Repr

/-- The outcome of `compile`: a machine, a returned `CompilerError`, or a
Rust panic (`panicked` covers every `panic!`/`expect` abort reachable from
`compile`, e.g. the out-of-order-range panic in
`manual_character_class_machine` and the `EmptyString` panic). -/
inductive CompileOutcome where
  | ok (m : GexMachine)
  | err (e : CompilerError)
  | panicked
deriving DecidableEq, Repr

def CompileOutcome.isOk : CompileOutcome → Bool
  | CompileOutcome.ok _ => true
  | _ => false

def CompileOutcome.isErr : CompileOutcome → Bool
  | CompileOutcome.err _ => true
  | _ => false

/-- `machine_for` from simple_machines.rs: byte-slice the pattern at the
token's span, build a machine for the first scalar, or the two-state
null machine when the slice is empty; a mid-scalar slice is a panic. -/
def machine_for (token : Token) (input : List Char) : Option GexMachine :=
  match sliceRange input token.startPos token.endPos with
  | none => none
  | some slice =>
    match slice.head? with
    | some range_value => some (machine_for_character range_value)
    | none => some (GexMachine.from_states [
        State.from_transitions [(Rule.null, Next.target 1)],
        State.accept_state])

/-- The lowering loop of `compile` (compiler.rs): walk the AST nodes in
order, maintaining a stack of machines. -/
def lowerGo (input : List Char) : List AstNode → List GexMachine → CompileOutcome
  | [], stack =>
    match stack with
    | top :: _ => CompileOutcome.ok top
    | [] => CompileOutcome.err CompilerError.catastrophic
  | node :: rest, stack =>
    match node with
    | AstNode.literal LiteralType.wildcard _ => lowerGo input rest (wildcard_machine :: stack)
    | AstNode.literal LiteralType.character token =>
      match machine_for token input with
      | none => CompileOutcome.panicked
      | some m => lowerGo input rest (m :: stack)
    | AstNode.literal LiteralType.escapedCharacter token =>
      match sliceRange input token.startPos token.endPos with
      | none => CompileOutcome.panicked
      | some slice =>
        match slice.drop 1 |>.head? with
        | none => CompileOutcome.panicked
        | some escaped => lowerGo input rest (machine_for_character escaped :: stack)
    | AstNode.literal (LiteralType.characterClass classType positive) token =>
      match classType with
      | CharacterClassType.word => lowerGo input rest (word_char_machine positive :: stack)
      | CharacterClassType.digit => lowerGo input rest (digit_char_machine positive :: stack)
      | CharacterClassType.whitespace =>
        lowerGo input rest (whitespace_char_machine positive :: stack)
      | CharacterClassType.manual =>
        match sliceRange input token.startPos token.endPos with
        | none => CompileOutcome.panicked
        | some class_slice =>
          match manual_character_class_machine positive class_slice with
          | none => CompileOutcome.panicked
          | some m => lowerGo input rest (m :: stack)
    | AstNode.literal LiteralType.emptyString _ => CompileOutcome.panicked
    | AstNode.quantifier qtype _ =>
      match stack with
      | operand :: stack =>
        match qtype with
        | QuantifierType.zeroOrMore => lowerGo input rest (operand.zero_or_more :: stack)
        | QuantifierType.oneOrMore => lowerGo input rest (operand.one_or_more :: stack)
        | QuantifierType.zeroOrOne => lowerGo input rest (operand.zero_or_one :: stack)
      | [] => CompileOutcome.err CompilerError.missingOperand
    | AstNode.consN _ _ =>
      match stack with
      | right :: left :: stack => lowerGo input rest (left.cons right :: stack)
      | _ => CompileOutcome.err CompilerError.missingOperand
    | AstNode.alternation _ _ =>
      match stack with
      | right :: left :: stack => lowerGo input rest (left.or right :: stack)
      | _ => CompileOutcome.err CompilerError.missingOperand
    | AstNode.groupN _ =>
      match stack with
      | operand :: stack => lowerGo input rest (operand.group :: stack)
      | [] => CompileOutcome.err CompilerError.missingOperand

/-- `compile` from compiler.rs: tokenize, parse, lower. -/
def compile (input : List Char) : CompileOutcome :=
  match tokenize input with
  | Except.error e => CompileOutcome.err (CompilerError.lexicalError e)
  | Except.ok tokens =>
    match ast_from_tokens tokens with
    | Except.error e => CompileOutcome.err (CompilerError.syntaxError e)
    | Except.ok ast => lowerGo input ast []

/-- `find` on the result of a successful `compile` (helper for stating
concrete behaviours). -/
def compileFind (pattern input : List Char) : Option Match :=
  match compile pattern with
  | CompileOutcome.ok m => m.find input
  | _ => none

/-- `captures` on the result of a successful `compile`. -/
def compileCaptures (pattern input : List Char) : Option (Option (List (Nat × Match))) :=
  match compile pattern with
  | CompileOutcome.ok m => m.captures input
  | _ => none

/-! ## The machine structural invariant (spec §3 / §4.3) -/

/-- Every `Target` destination of the state is below `n`. -/
def targetsBounded (n : Nat) (s : State) : Bool :=
  s.transitions.all (fun t =>
    match t.2 with
    | Next.target k => decide (k < n)
    | Next.accept => true)

/-- The conventional machine shape: a non-empty state sequence (so the start
state `0` exists), whose last state holds exactly the single transition
`(Null, Accept)`, with every transition destination in range. -/
def machineInv (m : GexMachine) : Bool :=
  match lastOf? m.states with
  | some s =>
    decide (s.transitions = [(Rule.null, Next.accept)]) &&
      m.states.all (targetsBounded m.states.length)
  | none => false

/-- A four-state machine used to exhibit the short-circuit behaviour of
`do_transition`: state `0` is a short-circuit (negative-class) state whose
rule rejects `'b'`, state `1` a plain state whose rule accepts `'b'`. -/
def shortCircuitExample : GexMachine :=
  GexMachine.from_states [
    State.short_circuit_from_transitions [(Rule.range 98 98 false, Next.target 2)],
    State.from_transitions [(Rule.range 98 98 true, Next.target 3)],
    State.accept_state,
    State.accept_state]

/-! ## Helper lemmas -/

theorem all_imp {p q : α → Bool} (h : ∀ a, p a = true → q a = true) :
    ∀ {l : List α}, l.all p = true → l.all q = true := by
  intro l hl
  rw [List.all_eq_true] at hl ⊢
  exact fun a ha => h a (hl a ha)

theorem all_dropLast {p : α → Bool} {l : List α} (h : l.all p = true) :
    l.dropLast.all p = true := by
  rw [List.all_eq_true] at h ⊢
  exact fun a ha => h a (List.dropLast_subset l ha)

theorem length_listModify (l : List α) (n : Nat) (f : α → α) :
    (listModify l n f).length = l.length := by
  induction l generalizing n with
  | nil => rfl
  | cons a rest ih =>
    cases n with
    | zero => rfl
    | succ k => simp [listModify, ih]

theorem all_listModify {p : α → Bool} {f : α → α} {l : List α} {n : Nat}
    (hl : l.all p = true) (hf : ∀ a, p a = true → p (f a) = true) :
    (listModify l n f).all p = true := by
  induction l generalizing n with
  | nil => exact hl
  | cons a rest ih =>
    rw [List.all_cons, Bool.and_eq_true] at hl
    cases n with
    | zero =>
      show (f a :: rest).all p = true
      rw [List.all_cons, Bool.and_eq_true]
      exact ⟨hf a hl.1, hl.2⟩
    | succ k =>
      show (a :: listModify rest k f).all p = true
      rw [List.all_cons, Bool.and_eq_true]
      exact ⟨hl.1, ih hl.2⟩

theorem length_listMapLast (f : α → α) (l : List α) :
    (listMapLast f l).length = l.length := by
  induction l with
  | nil => rfl
  | cons a rest ih =>
    cases rest with
    | nil => rfl
    | cons b rest2 =>
      simp only [listMapLast, List.length_cons] at ih ⊢
      omega

theorem all_listMapLast {p : α → Bool} {f : α → α} {l : List α}
    (hl : l.all p = true) (hf : ∀ a, p a = true → p (f a) = true) :
    (listMapLast f l).all p = true := by
  induction l with
  | nil => exact hl
  | cons a rest ih =>
    rw [List.all_cons, Bool.and_eq_true] at hl
    cases rest with
    | nil =>
      show (f a :: []).all p = true
      rw [List.all_cons, Bool.and_eq_true]
      exact ⟨hf a hl.1, rfl⟩
    | cons b rest2 =>
      show (a :: listMapLast f (b :: rest2)).all p = true
      rw [List.all_cons, Bool.and_eq_true]
      exact ⟨hl.1, ih hl.2⟩

theorem lastOf?_append (l1 : List α) {l2 : List α} (h : l2 ≠ []) :
    lastOf? (l1 ++ l2) = lastOf? l2 := by
  unfold lastOf?
  rw [List.reverse_append]
  cases h2 : l2.reverse with
  | nil => exact absurd (List.reverse_eq_nil_iff.mp h2) h
  | cons a t => simp

theorem lastOf?_map (f : α → β) (l : List α) :
    lastOf? (l.map f) = (lastOf? l).map f := by
  unfold lastOf?
  rw [← List.map_reverse, List.head?_map]

theorem lastOf?_isSome_of_ne_nil {l : List α} (h : l ≠ []) : (lastOf? l).isSome := by
  unfold lastOf?
  cases h2 : l.reverse with
  | nil => exact absurd (List.reverse_eq_nil_iff.mp h2) h
  | cons a t => simp

theorem ne_nil_of_machineInv {m : GexMachine} (h : machineInv m = true) :
    m.states ≠ [] := by
  intro hnil
  unfold machineInv at h
  rw [hnil] at h
  simp [lastOf?] at h

theorem featGetD_featPush (f : List (Nat × List Nat)) (k flag j : Nat) :
    featGetD (featPush f k flag) j =
      if j = k then featGetD f j ++ [flag] else featGetD f j := by
  induction f with
  | nil =>
    by_cases hj : j = k
    · subst hj
      simp [featPush, featGetD, featGet]
    · have hj2 : ¬k = j := fun h => hj h.symm
      simp [featPush, featGetD, featGet, hj, hj2]
  | cons a rest ih =>
    obtain ⟨k', v⟩ := a
    by_cases hk : k' = k
    · subst hk
      by_cases hj : j = k'
      · subst hj
        simp [featPush, featGetD, featGet]
      · have hj2 : ¬k' = j := fun h => hj h.symm
        simp [featPush, featGetD, featGet, hj, hj2]
    · by_cases hj : k' = j
      · subst hj
        simp [featPush, featGetD, featGet, hk]
      · simp only [featPush, featGetD, featGet, if_neg hk, if_neg hj]
        exact ih

/-! ## The machine invariant and its preservation -/

theorem machineInv_destruct {m : GexMachine} (h : machineInv m = true) :
    (∃ s, lastOf? m.states = some s ∧ s.transitions = [(Rule.null, Next.accept)]) ∧
      m.states.all (targetsBounded m.states.length) = true := by
  unfold machineInv at h
  cases hs : lastOf? m.states with
  | none => rw [hs] at h; exact absurd h (by simp)
  | some s =>
    rw [hs, Bool.and_eq_true, decide_eq_true_iff] at h
    exact ⟨⟨s, rfl, h.1⟩, h.2⟩

theorem machineInv_construct {m : GexMachine} {s : State}
    (hs : lastOf? m.states = some s) (ht : s.transitions = [(Rule.null, Next.accept)])
    (hb : m.states.all (targetsBounded m.states.length) = true) :
    machineInv m = true := by
  unfold machineInv
  rw [hs, Bool.and_eq_true, decide_eq_true_iff]
  exact ⟨ht, hb⟩

theorem ne_nil_of_machineInv' {m : GexMachine} (h : machineInv m = true) :
    m.states ≠ [] := ne_nil_of_machineInv h

theorem targetsBounded_eq_true_iff (n : Nat) (s : State) :
    targetsBounded n s = true ↔
      ∀ t ∈ s.transitions, ∀ k, t.2 = Next.target k → k < n := by
  unfold targetsBounded
  rw [List.all_eq_true]
  constructor
  · intro h t ht k hk
    have h2 := h t ht
    rw [hk] at h2
    simpa using h2
  · intro h t ht
    cases hk : t.2 with
    | target k => simpa using h t ht k hk
    | accept => rfl

theorem targetsBounded_mono {n n' : Nat} (h : n ≤ n') (s : State)
    (hs : targetsBounded n s = true) : targetsBounded n' s = true := by
  rw [targetsBounded_eq_true_iff] at hs ⊢
  intro t ht k hk
  exact lt_of_lt_of_le (hs t ht k hk) h

theorem targetsBounded_shifter {b : Nat} (shift : Nat) (s : State)
    (hs : targetsBounded b s = true) :
    targetsBounded (b + shift) (states_shifter shift s) = true := by
  rw [targetsBounded_eq_true_iff] at hs ⊢
  intro t ht k hk
  have ht' : t ∈ s.transitions.map (fun t =>
      match t with
      | (rule, Next.target next) => (rule, Next.target (next + shift))
      | other => other) := ht
  obtain ⟨a, ha, hat⟩ := List.mem_map.mp ht'
  obtain ⟨r, nx⟩ := a
  cases nx with
  | target j =>
    subst hat
    simp only at hk
    cases hk
    have := hs (r, Next.target j) ha j rfl
    omega
  | accept =>
    subst hat
    simp only at hk
    cases hk

theorem targetsBounded_pushT {n k : Nat} {s : State} {r : Rule}
    (hs : targetsBounded n s = true) (hk : k < n) :
    targetsBounded n (s.pushT (r, Next.target k)) = true := by
  rw [targetsBounded_eq_true_iff] at hs ⊢
  intro t ht j hj
  have ht' : t ∈ s.transitions ++ [(r, Next.target k)] := ht
  rcases List.mem_append.mp ht' with h1 | h1
  · exact hs t h1 j hj
  · rw [List.mem_singleton] at h1
    subst h1
    simp only at hj
    cases hj
    exact hk

theorem targetsBounded_retargetAccepts {n L : Nat} (hL : L < n) (s : State)
    (hs : targetsBounded n s = true) :
    targetsBounded n (GexMachine.retargetAccepts L s) = true := by
  rw [targetsBounded_eq_true_iff] at hs ⊢
  intro t ht k hk
  have ht' : t ∈ s.transitions.map (fun t =>
      match t with
      | (rule, Next.accept) => (rule, Next.target L)
      | other => other) := ht
  obtain ⟨a, ha, hat⟩ := List.mem_map.mp ht'
  obtain ⟨r, nx⟩ := a
  cases nx with
  | target j =>
    subst hat
    have hjk : j = k := by
      have hj : Next.target j = Next.target k := hk
      injection hj
    subst hjk
    exact hs (r, Next.target j) ha j rfl
  | accept =>
    subst hat
    simp only at hk
    cases hk
    exact hL

theorem mem_listMapLast {f : α → α} {l : List α} {t : α}
    (ht : t ∈ listMapLast f l) : t ∈ l ∨ ∃ a ∈ l, t = f a := by
  induction l with
  | nil => cases ht
  | cons a rest ih =>
    cases rest with
    | nil =>
      rcases List.mem_singleton.mp ht with h
      exact Or.inr ⟨a, List.mem_singleton.mpr rfl, h⟩
    | cons b rest2 =>
      rcases List.mem_cons.mp ht with h1 | h1
      · exact Or.inl (h1 ▸ List.mem_cons_self a (b :: rest2))
      · rcases ih h1 with h2 | ⟨c, hc, hct⟩
        · exact Or.inl (List.mem_cons_of_mem a h2)
        · exact Or.inr ⟨c, List.mem_cons_of_mem a hc, hct⟩

theorem targetsBounded_retargetLast {n L : Nat} (hL : L < n) (s : State)
    (hs : targetsBounded n s = true) :
    targetsBounded n (GexMachine.retargetLastTransition L s) = true := by
  rw [targetsBounded_eq_true_iff] at hs ⊢
  intro t ht k hk
  have ht' : t ∈ listMapLast (fun t => (t.1, Next.target L)) s.transitions := ht
  rcases mem_listMapLast ht' with h1 | ⟨a, ha, hat⟩
  · exact hs t h1 k hk
  · subst hat
    simp only at hk
    cases hk
    exact hL

theorem targetsBounded_accept_state (n : Nat) :
    targetsBounded n State.accept_state = true := rfl

theorem machineInv_cons {A B : GexMachine} (hA : machineInv A = true)
    (hB : machineInv B = true) : machineInv (A.cons B) = true := by
  obtain ⟨⟨sB, hsB, htB⟩, hbB⟩ := machineInv_destruct hB
  obtain ⟨_, hbA⟩ := machineInv_destruct hA
  have hAne : A.states ≠ [] := ne_nil_of_machineInv hA
  have hBne : B.states ≠ [] := ne_nil_of_machineInv hB
  have hA1 : 0 < A.states.length := List.length_pos.mpr hAne
  have hB1 : 0 < B.states.length := List.length_pos.mpr hBne
  have hstates : (A.cons B).states
      = A.states.dropLast ++ B.states.map (states_shifter (A.states.length - 1)) := rfl
  have hmapne : B.states.map (states_shifter (A.states.length - 1)) ≠ [] := by
    simpa using hBne
  have hlast : lastOf? (A.cons B).states
      = some (states_shifter (A.states.length - 1) sB) := by
    rw [hstates, lastOf?_append _ hmapne, lastOf?_map, hsB]
    rfl
  have hlastT : (states_shifter (A.states.length - 1) sB).transitions
      = [(Rule.null, Next.accept)] := by
    simp [states_shifter, htB]
  refine machineInv_construct hlast hlastT ?_
  have hlen : (A.cons B).states.length = (A.states.length - 1) + B.states.length := by
    rw [hstates]
    simp [List.length_dropLast]
  rw [hstates, List.all_append, Bool.and_eq_true]
  constructor
  · refine all_imp (fun s hs => targetsBounded_mono ?_ s hs) (all_dropLast hbA)
    rw [← hstates, hlen]
    omega
  · rw [List.all_map]
    refine all_imp (fun s hs => ?_) hbB
    show targetsBounded _ (states_shifter (A.states.length - 1) s) = true
    refine targetsBounded_mono ?_ _ (targetsBounded_shifter (A.states.length - 1) s hs)
    rw [← hstates, hlen]
    omega

theorem machineInv_or {A B : GexMachine} (hA : machineInv A = true)
    (hB : machineInv B = true) : machineInv (A.or B) = true := by
  obtain ⟨⟨sB, hsB, htB⟩, hbB⟩ := machineInv_destruct hB
  obtain ⟨_, hbA⟩ := machineInv_destruct hA
  have hAne : A.states ≠ [] := ne_nil_of_machineInv hA
  have hBne : B.states ≠ [] := ne_nil_of_machineInv hB
  have hA1 : 0 < A.states.length := List.length_pos.mpr hAne
  have hB1 : 0 < B.states.length := List.length_pos.mpr hBne
  have hstates : (A.or B).states
      = listMapLast (GexMachine.retargetLastTransition (A.states.length + B.states.length - 1))
          (listModify A.states 0 (fun s => s.pushT (Rule.null, Next.target A.states.length)))
        ++ B.states.map (states_shifter A.states.length) := rfl
  have hmapne : B.states.map (states_shifter A.states.length) ≠ [] := by
    simpa using hBne
  have hlast : lastOf? (A.or B).states = some (states_shifter A.states.length sB) := by
    rw [hstates, lastOf?_append _ hmapne, lastOf?_map, hsB]
    rfl
  have hlastT : (states_shifter A.states.length sB).transitions
      = [(Rule.null, Next.accept)] := by
    simp [states_shifter, htB]
  refine machineInv_construct hlast hlastT ?_
  have hlen : (A.or B).states.length = A.states.length + B.states.length := by
    rw [hstates]
    simp [length_listMapLast, length_listModify]
  rw [hstates, List.all_append, Bool.and_eq_true]
  constructor
  · refine all_listMapLast (all_listModify ?_ ?_) ?_
    · refine all_imp (fun s hs => targetsBounded_mono ?_ s hs) hbA
      rw [← hstates, hlen]
      omega
    · intro s hs
      refine targetsBounded_pushT hs ?_
      rw [← hstates, hlen]
      omega
    · intro s hs
      refine targetsBounded_retargetLast ?_ s hs
      rw [← hstates, hlen]
      omega
  · rw [List.all_map]
    refine all_imp (fun s hs => ?_) hbB
    show targetsBounded _ (states_shifter A.states.length s) = true
    refine targetsBounded_mono ?_ _ (targetsBounded_shifter A.states.length s hs)
    rw [← hstates, hlen]
    omega

theorem machineInv_group (A : GexMachine) : machineInv A.group = machineInv A := rfl

theorem machineInv_finalize {m0 : GexMachine}
    (hb : m0.states.all (targetsBounded (m0.states.length + 1)) = true) :
    machineInv m0.finalize_quantifier = true := by
  have hstates : m0.finalize_quantifier.states
      = listModify m0.states (m0.states.length - 1)
          (GexMachine.retargetAccepts m0.states.length) ++ [State.accept_state] := rfl
  have hlast : lastOf? m0.finalize_quantifier.states = some State.accept_state := by
    rw [hstates, lastOf?_append _ (by simp)]
    rfl
  refine machineInv_construct hlast rfl ?_
  have hlen : m0.finalize_quantifier.states.length = m0.states.length + 1 := by
    rw [hstates]
    simp [length_listModify]
  rw [hstates, List.all_append, Bool.and_eq_true]
  refine ⟨all_listModify ?_ ?_, ?_⟩
  · refine all_imp (fun s hs => targetsBounded_mono ?_ s hs) hb
    rw [← hstates, hlen]
  · intro s hs
    refine targetsBounded_retargetAccepts ?_ s hs
    rw [← hstates, hlen]
    omega
  · have : targetsBounded m0.finalize_quantifier.states.length State.accept_state = true :=
      targetsBounded_accept_state _
    simpa using this

theorem machineInv_zero_or_more {A : GexMachine} (hA : machineInv A = true) :
    machineInv A.zero_or_more = true := by
  obtain ⟨_, hbA⟩ := machineInv_destruct hA
  have hA1 : 0 < A.states.length := List.length_pos.mpr (ne_nil_of_machineInv hA)
  show machineInv A.accept_zero.accept_repeats.finalize_quantifier = true
  have hlen1 : A.accept_zero.states.length = A.states.length := length_listModify _ _ _
  have hlen2 : A.accept_zero.accept_repeats.states.length = A.states.length := by
    show (listModify _ _ _).length = _
    rw [length_listModify, hlen1]
  refine machineInv_finalize ?_
  rw [hlen2]
  show (listModify A.accept_zero.states (A.accept_zero.size - 1)
      (fun s => State.pushT s (Rule.null, Next.target 0))).all
      (targetsBounded (A.states.length + 1)) = true
  refine all_listModify ?_ ?_
  · show (listModify A.states 0
        (fun s => State.pushT s (Rule.null, Next.target A.size))).all
        (targetsBounded (A.states.length + 1)) = true
    refine all_listModify ?_ ?_
    · exact all_imp (fun s hs => targetsBounded_mono (Nat.le_succ _) s hs) hbA
    · intro s hs
      refine targetsBounded_pushT hs ?_
      show A.size < A.states.length + 1
      have hsz : A.size = A.states.length := rfl
      omega
  · intro s hs
    exact targetsBounded_pushT hs (Nat.succ_pos _)

theorem machineInv_one_or_more {A : GexMachine} (hA : machineInv A = true) :
    machineInv A.one_or_more = true := by
  obtain ⟨_, hbA⟩ := machineInv_destruct hA
  have hA1 : 0 < A.states.length := List.length_pos.mpr (ne_nil_of_machineInv hA)
  show machineInv A.accept_repeats.finalize_quantifier = true
  have hlen1 : A.accept_repeats.states.length = A.states.length := length_listModify _ _ _
  refine machineInv_finalize ?_
  rw [hlen1]
  show (listModify A.states (A.size - 1)
      (fun s => State.pushT s (Rule.null, Next.target 0))).all
      (targetsBounded (A.states.length + 1)) = true
  refine all_listModify ?_ ?_
  · exact all_imp (fun s hs => targetsBounded_mono (Nat.le_succ _) s hs) hbA
  · intro s hs
    exact targetsBounded_pushT hs (Nat.succ_pos _)

theorem machineInv_zero_or_one {A : GexMachine} (hA : machineInv A = true) :
    machineInv A.zero_or_one = true := by
  obtain ⟨_, hbA⟩ := machineInv_destruct hA
  have hA1 : 0 < A.states.length := List.length_pos.mpr (ne_nil_of_machineInv hA)
  show machineInv A.accept_zero.finalize_quantifier = true
  have hlen1 : A.accept_zero.states.length = A.states.length := length_listModify _ _ _
  refine machineInv_finalize ?_
  rw [hlen1]
  show (listModify A.states 0
      (fun s => State.pushT s (Rule.null, Next.target A.size))).all
      (targetsBounded (A.states.length + 1)) = true
  refine all_listModify ?_ ?_
  · exact all_imp (fun s hs => targetsBounded_mono (Nat.le_succ _) s hs) hbA
  · intro s hs
    refine targetsBounded_pushT hs ?_
    show A.size < A.states.length + 1
    have hsz : A.size = A.states.length := rfl
    omega

/-! ## Shape of the values returned by the simulator -/

theorem run_machine_result_start {m : GexMachine} {input : List Char} {mt : GexMatcher}
    {found : Match} {st : GexMatcher}
    (h : m.run_machine input mt = some (some found, st)) : found.start = 0 := by
  unfold GexMachine.run_machine at h
  rcases h1 : m.collapse_null_transitions [0] 0 mt with _ | ⟨curr, acc, mat⟩ <;> rw [h1] at h
  · cases h
  · dsimp only at h
    rcases h2 : GexMachine.runChars m input curr 0 false
        (if acc then some 0 else none) mat with _ | ⟨ce, mm⟩ <;> rw [h2] at h
    · cases h
    · dsimp only at h
      cases ce with
      | none => simp at h
      | some e =>
        simp only [Option.map_some', Option.some.injEq, Prod.mk.injEq] at h
        rw [← h.1]

theorem runFind_start {m : GexMachine} {input : List Char} {found : Match}
    (h : m.runFind input = some found) : found.start = 0 := by
  unfold GexMachine.runFind at h
  rcases hr : m.run_machine input GexMatcher.noCaptures with _ | ⟨res, st⟩ <;> rw [hr] at h
  · cases h
  · dsimp only at h
    rw [h] at hr
    exact run_machine_result_start hr

theorem firstSome_eq_some {l : List (Option α)} {a : α} (h : firstSome l = some a) :
    some a ∈ l := by
  induction l with
  | nil => cases h
  | cons x rest ih =>
    cases x with
    | some b =>
      rw [firstSome] at h
      exact h ▸ List.mem_cons_self _ _
    | none =>
      rw [firstSome] at h
      exact List.mem_cons_of_mem _ (ih h)

theorem find_at_bounds {m : GexMachine} {input : List Char} {at_ : Nat} {mt : Match}
    (h : m.find_at input at_ = some (some mt)) :
    at_ ≤ mt.start ∧ mt.start ≤ mt.stop := by
  unfold GexMachine.find_at at h
  obtain ⟨si, hsi, hmap⟩ := Option.map_eq_some'.mp h
  dsimp only at hmap
  obtain ⟨c, hc, hcm⟩ := List.mem_map.mp (firstSome_eq_some hmap)
  obtain ⟨found, hfound, hshift⟩ := Option.map_eq_some'.mp hcm
  have hstart : found.start = 0 := runFind_start hfound
  rw [← hshift]
  constructor
  · show at_ ≤ found.start + (c.1 + at_)
    omega
  · show found.start + (c.1 + at_) ≤ found.stop + (c.1 + at_)
    omega

/-! ## Ordering of the matches delivered by `try_find_iter_at` -/

theorem try_find_iter_bounds (m : GexMachine) (input : List Char) (cb : Match → Bool) :
    ∀ (fuel at_ : Nat), ∀ mt ∈ m.try_find_iter_at input at_ cb fuel,
      at_ ≤ mt.start ∧ mt.start ≤ mt.stop := by
  intro fuel
  induction fuel with
  | zero => intro at_ mt hmt; cases hmt
  | succ f ih =>
    intro at_ mt hmt
    unfold GexMachine.try_find_iter_at at hmt
    rcases hfa : m.find_at input at_ with _ | r <;> rw [hfa] at hmt
    · cases hmt
    · cases r with
      | none => cases hmt
      | some found =>
        dsimp only at hmt
        have hfb := find_at_bounds hfa
        rcases List.mem_cons.mp hmt with h1 | h1
        · exact h1 ▸ hfb
        · by_cases hcb : cb found = true
          · rw [if_pos hcb] at h1
            have hrec := ih _ mt h1
            constructor
            · have hle : found.stop ≤
                  (if found.start == found.stop then found.stop + 1 else found.stop) := by
                by_cases hz : found.start = found.stop <;> simp [hz]
              omega
            · exact hrec.2
          · rw [if_neg hcb] at h1
            cases h1

theorem try_find_iter_chain (m : GexMachine) (input : List Char) (cb : Match → Bool) :
    ∀ (fuel at_ : Nat),
      List.Chain' (fun a b => a.stop ≤ b.start ∧ a.start < b.start)
        (m.try_find_iter_at input at_ cb fuel) := by
  intro fuel
  induction fuel with
  | zero => intro at_; exact List.chain'_nil
  | succ f ih =>
    intro at_
    unfold GexMachine.try_find_iter_at
    rcases hfa : m.find_at input at_ with _ | r
    · exact List.chain'_nil
    · cases r with
      | none => exact List.chain'_nil
      | some found =>
        dsimp only
        rw [List.chain'_cons']
        have hfb := find_at_bounds hfa
        constructor
        · intro b hb
          by_cases hcb : cb found = true
          · rw [if_pos hcb] at hb
            have hmem : b ∈ m.try_find_iter_at input
                (if found.start == found.stop then found.stop + 1 else found.stop) cb f := by
              cases hhd : (m.try_find_iter_at input
                  (if found.start == found.stop then found.stop + 1 else found.stop) cb f) with
              | nil => rw [hhd] at hb; cases hb
              | cons x rest =>
                rw [hhd] at hb
                rw [List.head?_cons, Option.mem_some_iff] at hb
                rw [← hb]
                exact List.mem_cons_self _ _
            have hbb := try_find_iter_bounds m input cb f _ b hmem
            by_cases hz : found.start = found.stop
            · rw [if_pos (by simpa using hz)] at hbb
              constructor <;> omega
            · rw [if_neg (by simpa using hz)] at hbb
              constructor <;> omega
          · rw [if_neg hcb] at hb
            cases hb
        · by_cases hcb : cb found = true
          · rw [if_pos hcb]
            exact ih _
          · rw [if_neg hcb]
            exact List.chain'_nil

/-! ## The claims -/

/-- C1: the claim states that match positions are byte offsets into the
UTF-8-encoded input, each consumed scalar advancing the position by its
UTF-8 byte length.  The code instead advances the position by exactly `1`
per consumed scalar (`new_position += 1` in `do_transition`; the
`char_len = input_char.len_utf8()` binding in `run_machine` is never used):
on the two-byte scalar `'é'`, `find` on the wildcard machine reports end
offset `1` where the byte length of the consumed scalar is `2`. -/
theorem claim_C1_position_advances_by_one_not_utf8 :
    wildcard_machine.find ['é'] = some { start := 0, stop := 1 } ∧ utf8Len 'é' = 2 := by
  decide

/-- C2: the claim states that `group_numbers` decodes the flag words written
by `group()` back to `(N, 0)` / `(N, 1)`.  In the code, `group()` encodes
with machine.rs's layout (group number at bit 48, close bit `0x2`) while
`GexFeatures::group_numbers` decodes with features.rs's layout (group
number in the low 16 bits, close bit at bit 16): for `N = 1` the open word
`1 <<< 48` decodes to `(0, 0)` and the close word `(1 <<< 48) ||| 2`
decodes to `(2, 0)`. -/
theorem claim_C2_capture_flag_decode_mismatch :
    ((machine_for_character 'a').group).features.state_flags
      = [(0, [1 <<< 48]), (2, [(1 <<< 48) ||| 2])] ∧
    GexFeatures.group_numbers ((machine_for_character 'a').group).features 0 = some [(0, 0)] ∧
    GexFeatures.group_numbers ((machine_for_character 'a').group).features 2 = some [(2, 0)] := by
  decide

/-- C3: the claim states `captures(S)` contains group 0 iff `find(S)` is
`Some`, with identical span.  `captures` runs the machine once anchored at
position 0 while `find` slides the start position, so for the
single-character machine for `'b'` on `"ab"`, `find` returns the match
`(1, 2)` but `captures` returns `None`. -/
theorem claim_C3_captures_anchored_vs_find :
    (machine_for_character 'b').find ['a', 'b'] = some { start := 1, stop := 2 } ∧
    (machine_for_character 'b').captures ['a', 'b'] = some none := by
  decide

/-- C4: the claim states that when a short-circuit state fails, only that
state's contribution is discarded and every other active state still
contributes.  In the code the failure executes `break` out of the loop over
all active states and resets `consumed_a_character`: with active states
`{0, 1}` where state 0 is a failing short-circuit state and state 1's rule
matches `'b'` (second conjunct), the step yields no states, no acceptance
and no consumption — state 1's contribution is lost. -/
theorem claim_C4_short_circuit_aborts_step :
    shortCircuitExample.do_transition [0, 1] 'b' GexMatcher.noCaptures 0 false
      = some ([], false, 0, GexMatcher.noCaptures) ∧
    GexMachine.evaluate_rule (Rule.range 98 98 true) 'b' = true := by
  decide

/-- C5: the claim states that for `(a(bc(de)))df(defg)` on `"abcdedfdefgh"`
captures yields groups 0–4 with spans `(0,11), (0,5), (1,5), (3,5), (7,11)`.
Because of the encode/decode mismatch between machine.rs and features.rs
(see C2), no close flag is ever decoded, no capture candidate ever receives
an end, and `captures` returns only the overall match: group 0 = `(0, 11)`
and nothing else. -/
theorem claim_C5_nested_group_captures_lost :
    compileCaptures "(a(bc(de)))df(defg)".toList "abcdedfdefgh".toList
      = some (some [(0, { start := 0, stop := 11 })]) := by
  decide

/-- C6: every combinator preserves the machine invariant: a non-empty state
sequence (so the start state has id 0), a last state holding exactly the
single transition `(Null, Accept)`, and every transition destination in
range of the states sequence. -/
theorem claim_C6_combinators_preserve_invariant (A B : GexMachine)
    (hA : machineInv A = true) (hB : machineInv B = true) :
    machineInv (A.cons B) = true ∧ machineInv (A.or B) = true ∧
    machineInv A.group = true ∧ machineInv A.zero_or_more = true ∧
    machineInv A.one_or_more = true ∧ machineInv A.zero_or_one = true :=
  ⟨machineInv_cons hA hB, machineInv_or hA hB,
   by rw [machineInv_group]; exact hA,
   machineInv_zero_or_more hA, machineInv_one_or_more hA, machineInv_zero_or_one hA⟩

/-- Witness for C6 at the concrete machines for `'a'` and `'b'`. -/
theorem claim_C6_witness :
    machineInv (machine_for_character 'a') = true ∧
    machineInv (machine_for_character 'b') = true ∧
    (machineInv ((machine_for_character 'a').cons (machine_for_character 'b')) = true ∧
     machineInv ((machine_for_character 'a').or (machine_for_character 'b')) = true ∧
     machineInv (machine_for_character 'a').group = true ∧
     machineInv (machine_for_character 'a').zero_or_more = true ∧
     machineInv (machine_for_character 'a').one_or_more = true ∧
     machineInv (machine_for_character 'a').zero_or_one = true) :=
  ⟨by decide, by decide,
   claim_C6_combinators_preserve_invariant (machine_for_character 'a')
     (machine_for_character 'b') (by decide) (by decide)⟩

/-- C7: the matches delivered by `try_find_iter_at` start at or after the
requested position, are in strict left-to-right order of start position and
do not overlap (each match starts at or after the previous match's end; a
zero-width match resumes one byte past its end, so positions strictly
increase and no position is reported twice). -/
theorem claim_C7_iterator_ordering (m : GexMachine) (input : List Char) (at_ : Nat)
    (cb : Match → Bool) (fuel : Nat) :
    (∀ mt ∈ m.try_find_iter_at input at_ cb fuel, at_ ≤ mt.start ∧ mt.start ≤ mt.stop) ∧
    List.Chain' (fun a b => a.stop ≤ b.start ∧ a.start < b.start)
      (m.try_find_iter_at input at_ cb fuel) :=
  ⟨try_find_iter_bounds m input cb fuel at_, try_find_iter_chain m input cb fuel at_⟩

/-- C8: the claim states the tokenizer errors report the byte offset of the
offending `[` or backslash.  `Token::create` builds literal-character spans
as `position + 1` regardless of the scalar's UTF-8 length, so after the
two-byte scalar `'é'` (total byte length 2, last conjunct) every reported
position is short: the offending `[` / `\` sits at byte offset 2 but the
errors report offset 1. -/
theorem claim_C8_error_positions_drift :
    tokenize "é[]".toList = Except.error (TokenizeError.emptyCharacterSet 1) ∧
    tokenize "é[".toList = Except.error (TokenizeError.unterminatedCharacterSet 1) ∧
    tokenize "é\\".toList = Except.error (TokenizeError.unterminatedEscape 1) ∧
    byteLen ['é'] = 2 :=
  ⟨rfl, rfl, rfl, rfl⟩

/-- C9 counterexample: the claim states `compile` returns an error result on
an out-of-order range (rather than succeeding or aborting); on `[z-a]`
`compile` aborts with a panic — it neither returns an error result nor
succeeds. -/
theorem claim_C9_counterexample :
    compile "[z-a]".toList = CompileOutcome.panicked ∧
    (compile "[z-a]".toList).isErr = false ∧
    (compile "[z-a]".toList).isOk = false := by
  decide

/-- C9 amended: `compile` panics (aborts) at compile time on an out-of-order
manual range such as `[z-a]`, while a leading or trailing hyphen in a class
is treated as a literal character and compiles to a machine that matches
`'-'`. -/
theorem claim_C9_amended :
    compile "[z-a]".toList = CompileOutcome.panicked ∧
    compileFind "[-a]".toList ['-'] = some { start := 0, stop := 1 } ∧
    compileFind "[a-]".toList ['-'] = some { start := 0, stop := 1 } := by
  decide

/-- C10: `group()` leaves the states sequence (including per-state flag
bitfields) unchanged, increments `max_group_index` by exactly one, and only
appends one open flag word at state 0 and one close flag word at the last
state in the features map, all other entries unchanged. -/
theorem claim_C10_group_frame (A : GexMachine) (h : A.states ≠ []) :
    (A.group).states = A.states ∧
    (A.group).max_group_index = A.max_group_index + 1 ∧
    ∀ k, featGetD (A.group).features.state_flags k =
      featGetD A.features.state_flags k
        ++ (if k = 0 then [(A.max_group_index + 1) <<< machineShiftCapturingGroup] else [])
        ++ (if k = A.states.length - 1 then
              [((A.max_group_index + 1) <<< machineShiftCapturingGroup) ||| machineMaskCloseGroup]
            else []) := by
  refine ⟨rfl, rfl, ?_⟩
  intro k
  show featGetD (featPush (featPush A.features.state_flags 0
      ((A.max_group_index + 1) <<< machineShiftCapturingGroup)) (A.states.length - 1)
      (((A.max_group_index + 1) <<< machineShiftCapturingGroup) ||| machineMaskCloseGroup)) k = _
  rw [featGetD_featPush, featGetD_featPush]
  split_ifs <;> simp [List.append_assoc]

/-- Witness for C10 at the concrete machine for `'a'` (instantiating the
per-key statement at key 0, the open-flag entry). -/
theorem claim_C10_witness :
    (machine_for_character 'a').states ≠ [] ∧
    ((machine_for_character 'a').group).states = (machine_for_character 'a').states ∧
    ((machine_for_character 'a').group).max_group_index
      = (machine_for_character 'a').max_group_index + 1 ∧
    featGetD ((machine_for_character 'a').group).features.state_flags 0 =
      featGetD (machine_for_character 'a').features.state_flags 0
        ++ (if (0 : Nat) = 0 then
              [((machine_for_character 'a').max_group_index + 1) <<< machineShiftCapturingGroup]
            else [])
        ++ (if (0 : Nat) = (machine_for_character 'a').states.length - 1 then
              [(((machine_for_character 'a').max_group_index + 1) <<< machineShiftCapturingGroup)
                ||| machineMaskCloseGroup]
            else []) :=
  ⟨by decide,
   (claim_C10_group_frame (machine_for_character 'a') (by decide)).1,
   (claim_C10_group_frame (machine_for_character 'a') (by decide)).2.1,
   (claim_C10_group_frame (machine_for_character 'a') (by decide)).2.2 0⟩

end Saltgrep
